import Mathlib

/-!
Verification of the note conversion pipeline (`keep_to_supabase.py`).

Strings are modelled as `List Char`; the Python functions are translated
into executable Lean definitions and their specified properties proved.
-/

set_option maxRecDepth 10000

/-- Python `\s` / `str.strip` whitespace set (ASCII range, as exercised by the inputs). -/
def pySpace (c : Char) : Bool :=
  c = ' ' || c = '\t' || c = '\n' || c = '\r' || c = '\x0b' || c = '\x0c'

/-- Python `str.strip()`: drop whitespace from both ends. -/
def pyStrip (l : List Char) : List Char :=
  ((l.dropWhile pySpace).reverse.dropWhile pySpace).reverse

/-- `BLANK_LINE_RE = ^\s*$`: the line is empty or all whitespace. -/
def isBlank (l : List Char) : Bool :=
  l.all pySpace

/-- `STARTS_WITH_NUMBER_RE = ^\s*\d`: after leading whitespace the line starts with a digit. -/
def startsWithNumber (l : List Char) : Bool :=
  match l.dropWhile pySpace with
  | c :: _ => c.isDigit
  | [] => false

/-- `TAB_LINE_RE = ^\s*[eEGBDA]\s*\|`. -/
def tabLineMatch (l : List Char) : Bool :=
  match l.dropWhile pySpace with
  | c :: rest =>
    (c = 'e' || c = 'E' || c = 'G' || c = 'B' || c = 'D' || c = 'A') &&
      (match rest.dropWhile pySpace with
       | '|' :: _ => true
       | _ => false)
  | [] => false

/-- Boolean "the first list starts the second" (pattern, then subject). -/
def startsWithL : List Char → List Char → Bool
  | [], _ => true
  | _ :: _, [] => false
  | p :: ps, c :: cs => p = c && startsWithL ps cs

/-- Tail of `URL_RE` after the scheme: `://` followed by one or more non-whitespace chars. -/
def urlTail (r : List Char) : Bool :=
  match r with
  | ':' :: '/' :: '/' :: rest => (!rest.isEmpty) && rest.all (fun c => !pySpace c)
  | _ => false

/-- Anchored match of `URL_RE = https?://[^\s]+` against a whole string. -/
def URL_fullmatch (s : List Char) : Bool :=
  match s with
  | 'h' :: 't' :: 't' :: 'p' :: rest =>
    (match rest with
     | 's' :: rest2 => urlTail rest2
     | _ => false) || urlTail rest
  | _ => false

/-- Line 93: a line is a bare reference when its stripped form fully matches `URL_RE`. -/
def isBareRef (l : List Char) : Bool :=
  URL_fullmatch (pyStrip l)

/-- Line 80: `replace("–","-").replace("—","-")` — both are single-char replacements. -/
def dashFix (l : List Char) : List Char :=
  l.map (fun c => if c = '–' || c = '—' then '-' else c)

/-- Line 86: `replace("\r\n", "\n")`, a left-to-right non-overlapping substring replace. -/
def replaceCRLF : List Char → List Char
  | [] => []
  | [c] => [c]
  | c :: d :: rest =>
    if c = '\r' && d = '\n' then '\n' :: replaceCRLF rest
    else c :: replaceCRLF (d :: rest)

/-- Line 86: `replace("\r", "\n")` — single-char replacement. -/
def replaceCR (l : List Char) : List Char :=
  l.map (fun c => if c = '\r' then '\n' else c)

/-- The text normalization of lines 80 and 86: dashes to hyphens, then line endings to `\n`. -/
def normalizeText (l : List Char) : List Char :=
  replaceCR (replaceCRLF (dashFix l))

/-- Python `split("\n")`; always returns at least one (possibly empty) piece. -/
def splitOnNL : List Char → List (List Char)
  | [] => [[]]
  | c :: rest =>
    if c = '\n' then [] :: splitOnNL rest
    else
      match splitOnNL rest with
      | h :: t => (c :: h) :: t
      | [] => [[c]]

/-- Python `"\n".join(...)`. -/
def joinNL (ls : List (List Char)) : List Char :=
  match ls with
  | [] => []
  | [l] => l
  | l :: rest => l ++ '\n' :: joinNL rest

/-- Python `", ".join(...)`. -/
def joinCommaSpace (ls : List (List Char)) : List Char :=
  match ls with
  | [] => []
  | [l] => l
  | l :: rest => l ++ ',' :: ' ' :: joinCommaSpace rest

/-- Scanner for `collapseWS`; the flag records whether the previous character was
part of a whitespace run already emitted as a single space. -/
def collapseWSGo : Bool → List Char → List Char
  | _, [] => []
  | prevWS, c :: rest =>
    if pySpace c then
      if prevWS then collapseWSGo true rest
      else ' ' :: collapseWSGo true rest
    else c :: collapseWSGo false rest

/-- `re.sub(r'\s+', ' ', ·)`: each maximal whitespace run becomes one space. -/
def collapseWS (l : List Char) : List Char :=
  collapseWSGo false l

/-- Split at the first `)` , returning the parts before and after it. -/
def splitAtParen : List Char → Option (List Char × List Char)
  | [] => none
  | c :: rest =>
    if c = ')' then some ([], rest)
    else (splitAtParen rest).map (fun p => (c :: p.1, p.2))

/-- `BRACKET_CONTENT_RE.search = \((.*?)\)`: first `(`, its non-greedy matching `)`;
returns (text before the group, group content, text after the group). -/
def findBracket : List Char → Option (List Char × List Char × List Char)
  | [] => none
  | c :: rest =>
    if c = '(' then
      match splitAtParen rest with
      | some p => some ([], p.1, p.2)
      | none => none
    else (findBracket rest).map (fun t => (c :: t.1, t.2.1, t.2.2))

/-- Separators of `re.split(r'[,\s]+', ·)`. -/
def isTokSep (c : Char) : Bool :=
  c = ',' || pySpace c

/-- Scanner for `splitTok`; `acc` holds the current token, reversed. -/
def splitTokGo (acc : List Char) : List Char → List (List Char)
  | [] => if acc.isEmpty then [] else [acc.reverse]
  | c :: rest =>
    if isTokSep c then
      if acc.isEmpty then splitTokGo [] rest
      else acc.reverse :: splitTokGo [] rest
    else splitTokGo (c :: acc) rest

/-- `re.split(r'[,\s]+', ·)` followed by dropping empty pieces (line 65):
the maximal runs of non-separator characters. -/
def splitTok (l : List Char) : List (List Char) :=
  splitTokGo [] l

def NOTES_SHARP : List String :=
  ["C", "C#", "D", "D#"] ++ ["E", "F", "F#", "G"] ++ ["G#", "A", "A#", "B"]

def NOTES_FLAT : List String :=
  ["C", "Db", "D", "Eb"] ++ ["E", "F", "Gb", "G"] ++ ["Ab", "A", "Bb", "B"]

def ALL_NOTES : List String := NOTES_SHARP ++ NOTES_FLAT

def qualitySuffixes : List String := ["m", "maj", "min", "dim", "aug", "sus"]

def isBassNoteLetter (c : Char) : Bool :=
  'A' ≤ c && c ≤ 'G'

/-- The optional `(?:/[A-G][b#]?)?$` part of `CHORD_SUFFIX_RE`. -/
def bassOpt : List Char → Bool
  | [] => true
  | '/' :: c :: rest => isBassNoteLetter c && (rest.isEmpty || rest == ['b'] || rest == ['#'])
  | _ => false

/-- The `\d+` quality alternative followed by the optional bass, anchored at the end. -/
def digitsBass (r : List Char) : Bool :=
  (!(r.takeWhile Char.isDigit).isEmpty) && bassOpt (r.dropWhile Char.isDigit)

/-- `(?:m|maj|min|dim|aug|sus|\d+)?(?:/[A-G][b#]?)?$` of `CHORD_SUFFIX_RE`. -/
def suffixBass (r : List Char) : Bool :=
  bassOpt r ||
    qualitySuffixes.any (fun q => startsWithL q.data r && bassOpt (r.drop q.length)) ||
    digitsBass r

/-- Anchored match of `CHORD_SUFFIX_RE`: one of `ALL_NOTES`, then `suffixBass`. -/
def CHORD_SUFFIX_match (t : List Char) : Bool :=
  ALL_NOTES.any (fun n => startsWithL n.data t && suffixBass (t.drop n.length))

/-- Lines 59-71: `extract_chords_from_title`. -/
def extract_chords_from_title (t : List Char) : List Char × Option (List Char) :=
  let t1 := pyStrip (collapseWS t)
  match findBracket t1 with
  | none => (t1, none)
  | some g =>
    let valid := (splitTok g.2.1).filter CHORD_SUFFIX_match
    if valid.isEmpty then (t1, none)
    else
      ("Chords used : ".data ++ joinCommaSpace valid) |> fun md =>
        (pyStrip (collapseWS (pyStrip g.1 ++ pyStrip g.2.2)), some md)

/-- Lines 89-96: partition lines into (stripped reference lines, remaining content lines). -/
def splitRefs : List (List Char) → List (List Char) × List (List Char)
  | [] => ([], [])
  | l :: rest =>
    let p := splitRefs rest
    if isBareRef l then (pyStrip l :: p.1, p.2) else (p.1, l :: p.2)

/-- Lines 100-104: maximal run of non-blank lines starting at line 0. -/
def firstParagraph (ls : List (List Char)) : List (List Char) :=
  ls.takeWhile (fun l => !isBlank l)

/-- Lines 106-110: decide whether the leading lines form a metadata header. -/
def useMetadata (ls : List (List Char)) : Bool :=
  match firstParagraph ls with
  | [] => true
  | h :: _ => !(startsWithNumber h || (firstParagraph ls).any tabLineMatch)

/-- Lines 113-119: (metadata lines, remaining content lines). -/
def splitMetadata (ls : List (List Char)) : List (List Char) × List (List Char) :=
  if useMetadata ls then
    (firstParagraph ls, ls.drop ((firstParagraph ls).length + 1))
  else ([], ls)

/-- One fenced block (line 130): three backticks, the block lines newline-joined,
then a newline and three closing backticks. -/
def tabFence (block : List (List Char)) : List Char :=
  "```".data ++ joinNL block ++ '\n' :: "```".data

/-- Scanner for `groupTabs`; `acc` holds the current run of tab lines, reversed. -/
def groupTabsGo (acc : List (List Char)) : List (List Char) → List (List Char)
  | [] => if acc.isEmpty then [] else [tabFence acc.reverse]
  | l :: rest =>
    if tabLineMatch l then groupTabsGo (l :: acc) rest
    else
      (if acc.isEmpty then [] else [tabFence acc.reverse]) ++ l :: groupTabsGo [] rest

/-- Lines 122-133: group maximal runs of consecutive tab lines into fenced blocks. -/
def groupTabs (ls : List (List Char)) : List (List Char) :=
  groupTabsGo [] ls

/-- Python `.strip("\n")`. -/
def stripNLends (l : List Char) : List Char :=
  ((l.dropWhile (fun c => c = '\n')).reverse.dropWhile (fun c => c = '\n')).reverse

/-- Lines 136-141: join metadata lines, strip, append the chord line if present. -/
def mergeMetadata (mlines : List (List Char)) (chords : Option (List Char)) : List Char :=
  let m := pyStrip (joinNL mlines)
  match chords with
  | some c => if m.isEmpty then c else m ++ '\n' :: c
  | none => m

/-- A JSON value that Python `int(...)` is applied to: an integer or a string. -/
inductive TsVal where
  | int (n : Int)
  | str (s : String)
deriving DecidableEq

/-- Value of a digit character. -/
def digitVal (c : Char) : Nat := c.toNat - 48

/-- Numeric value of a digit run. -/
def natOfDigits (ds : List Char) : Nat :=
  ds.foldl (fun a c => a * 10 + digitVal c) 0

/-- Python `int(·)` on a string: optional surrounding whitespace, optional sign, digits. -/
def pyIntOfChars (l : List Char) : Option Int :=
  let t := pyStrip l
  match t with
  | '-' :: ds => if !ds.isEmpty && ds.all Char.isDigit then some (-(natOfDigits ds : Int)) else none
  | '+' :: ds => if !ds.isEmpty && ds.all Char.isDigit then some (natOfDigits ds : Int) else none
  | ds => if !ds.isEmpty && ds.all Char.isDigit then some (natOfDigits ds : Int) else none

/-- Python `int(·)`; `none` models the `ValueError`/`TypeError` raised on a bad string. -/
def pyInt : TsVal → Option Int
  | .int n => some n
  | .str s => pyIntOfChars s.data

/-- Python `x or y` for an optional string `x`: `y` when `x` is `None` or empty. -/
def pyOrStr (o : Option String) (d : String) : String :=
  match o with
  | some s => if s = "" then d else s
  | none => d

/-- Proleptic Gregorian calendar date from days since 1970-01-01 (civil-from-days). -/
def civilFromDays (z0 : Int) : Int × Nat × Nat :=
  let z := z0 + 719468
  let era := (if 0 ≤ z then z else z - 146096) / 146097
  let doe := (z - era * 146097).toNat
  let yoe := (doe - doe / 1460 + doe / 36524 - doe / 146096) / 365
  let doy := doe - (365 * yoe + yoe / 4 - yoe / 100)
  let mp := (5 * doy + 2) / 153
  let d := doy - (153 * mp + 2) / 5 + 1
  let m := if mp < 10 then mp + 3 else mp - 9
  ((yoe : Int) + era * 400 + (if m ≤ 2 then 1 else 0), m, d)

/-- Decimal digits of `n`, zero-padded to width `w`. -/
def padDigits (w n : Nat) : List Char :=
  let ds := Nat.toDigits 10 n
  List.replicate (w - ds.length) '0' ++ ds

/-- `datetime.fromtimestamp(micros / 1e6, tz=timezone.utc).isoformat()`, with the
float division modelled exactly (floor seconds plus a microsecond remainder). -/
def isoOfMicros (micros : Int) : String :=
  let secs := micros.fdiv 1000000
  let usec := (micros.emod 1000000).toNat
  let days := secs.fdiv 86400
  let sod := (secs.emod 86400).toNat
  let ymd := civilFromDays days
  (padDigits 4 ymd.1.toNat ++ '-' :: padDigits 2 ymd.2.1 ++ '-' :: padDigits 2 ymd.2.2 ++
    'T' :: padDigits 2 (sod / 3600) ++ ':' :: padDigits 2 (sod % 3600 / 60) ++
    ':' :: padDigits 2 (sod % 60) ++
    (if usec = 0 then [] else '.' :: padDigits 6 usec) ++ "+00:00".data).asString

/-- Lines 43-48: `micros_to_iso`. -/
def micros_to_iso (micros : Option Int) : Option String :=
  match micros with
  | none => none
  | some m => some (isoOfMicros m)

/-- One entry of the input `labels` list; `name` is absent when the key is missing. -/
structure RawLabel where
  name : Option String
deriving DecidableEq

/-- The fields of one Keep JSON export record that `parse_note_json` reads.
`none` models an absent key (or JSON `null` for the strings). -/
structure RawNote where
  title : Option String
  textContent : Option String
  labels : List RawLabel
  isPinned : Bool
  createdTimestampUsec : Option TsVal
  userEditedTimestampUsec : Option TsVal
deriving DecidableEq

/-- The dictionary returned by `parse_note_json` (lines 151-160). -/
structure StructuredNote where
  title : String
  metadata : String
  content : String
  references : String
  labels : List String
  is_pinned : Bool
  created_at_iso : String
  updated_at_iso : String
deriving DecidableEq

/-- Line 83: label names that are present and truthy, stripped. -/
def extractLabels (ls : List RawLabel) : List String :=
  ls.filterMap (fun l =>
    match l.name with
    | some s => if s = "" then none else some (pyStrip s.data).asString
    | none => none)

/-- Lines 74-160: `parse_note_json`. `now` is the run's current time
(`datetime.now(timezone.utc).isoformat()`); `none` models the uncaught
`ValueError`/`TypeError` raised by `int(...)` on a malformed timestamp.
The no-op round trip `"\n".join(content.split("\n"))` of line 145 is elided. -/
def parse_note_json (now : String) (data : RawNote) : Option StructuredNote :=
  let tc := extract_chords_from_title (pyStrip ((data.title.getD "").data))
  let rawText := dashFix ((data.textContent.getD "").data)
  let lines := splitOnNL (replaceCR (replaceCRLF rawText))
  let rc := splitRefs lines
  let mc := splitMetadata rc.2
  match pyInt (data.createdTimestampUsec.getD (TsVal.int 0)),
        pyInt (data.userEditedTimestampUsec.getD (TsVal.int 0)) with
  | some cm, some um =>
    let created := pyOrStr (micros_to_iso (some cm)) now
    some {
      title := tc.1.asString
      metadata := (mergeMetadata mc.1 tc.2).asString
      content := (stripNLends (pyStrip (joinNL (groupTabs mc.2)))).asString
      references := (joinNL rc.1).asString
      labels := extractLabels data.labels
      is_pinned := data.isPinned
      created_at_iso := created
      updated_at_iso := pyOrStr (micros_to_iso (some um)) created }
  | _, _ => none

/-- Lines 195-206: `collect_notes`. Each input file is `none` when reading or JSON
decoding fails (caught and skipped, lines 198-203) and `some data` otherwise;
the whole result is `none` when `parse_note_json` (called outside the `try`)
raises, aborting the batch. -/
def collect_notes (now : String) : List (Option RawNote) → Option (List StructuredNote)
  | [] => some []
  | none :: rest => collect_notes now rest
  | some d :: rest =>
    match parse_note_json now d with
    | none => none
    | some p => (collect_notes now rest).map (fun l => p :: l)

/-- All labels of all notes, in order (line 224-225 builds a set from these). -/
def allLabels : List StructuredNote → List String
  | [] => []
  | n :: rest => n.labels ++ allLabels rest

/-- Lexicographic comparison of code points, Python `<` on strings. -/
def lexLt : List Char → List Char → Bool
  | _ :: _, [] => false
  | [], [] => false
  | [], _ :: _ => true
  | x :: xs, y :: ys => if x < y then true else if y < x then false else lexLt xs ys

/-- Insert into a sorted list. -/
def insertSorted (x : String) : List String → List String
  | [] => [x]
  | y :: ys => if lexLt y.data x.data then y :: insertSorted x ys else x :: y :: ys

/-- Sort a list of strings, modelling Python `sorted`. -/
def sortStrs : List String → List String
  | [] => []
  | x :: xs => insertSorted x (sortStrs xs)

/-- Line 227: `sorted(all_tags)` — the distinct labels, sorted. -/
def tagNames (notes : List StructuredNote) : List String :=
  sortStrs (allLabels notes).dedup

/-- Index of a string in a list (`tag_map` lookup; the generated tag id is
modelled as the tag's position in `tagNames`). -/
def idxOf : List String → String → Option Nat
  | [], _ => none
  | x :: xs, y => if x = y then some 0 else (idxOf xs y).map (· + 1)

/-- Pair each element with its index, starting at `i`. -/
def enumTags : Nat → List String → List (Nat × String)
  | _, [] => []
  | i, x :: rest => (i, x) :: enumTags (i + 1) rest

/-- Pair each note with its index, starting at `i` (note ids are note positions). -/
def enumNotes : Nat → List StructuredNote → List (Nat × StructuredNote)
  | _, [] => []
  | i, n :: rest => (i, n) :: enumNotes (i + 1) rest

/-- Lines 258-263: the `note_tags` rows `(note id, tag id)` emitted for the notes,
note ids starting at `i`; a label is linked only when it is in `tag_map`. -/
def linkRows (tnames : List String) : Nat → List StructuredNote → List (Nat × Nat)
  | _, [] => []
  | i, n :: rest =>
    n.labels.filterMap (fun L => (idxOf tnames L).map (fun t => (i, t))) ++
      linkRows tnames (i + 1) rest

/-- For one label `L` with tag id `t`: the link rows of a run, note by note —
each note at index `i` contributes one `(i, t)` row per occurrence of `L` in its
label list (used to characterize `linkRows`). -/
def replLinks (L : String) (t : Nat) : Nat → List StructuredNote → List (Nat × Nat)
  | _, [] => []
  | i, n :: rest => List.replicate (n.labels.count L) (i, t) ++ replLinks L t (i + 1) rest

/-- The three INSERT streams written by `generate_sql`: tag rows `(tag id, name)`,
note rows `(note id, note)`, and link rows `(note id, tag id)`. The freshly
generated UUIDs are modelled as positions in the respective generation order. -/
structure SqlOut where
  tagInserts : List (Nat × String)
  noteInserts : List (Nat × StructuredNote)
  linkInserts : List (Nat × Nat)
deriving DecidableEq

/-- Lines 222-265: `generate_sql`. -/
def generate_sql (notes : List StructuredNote) : SqlOut :=
  { tagInserts := enumTags 0 (tagNames notes)
    noteInserts := enumNotes 0 notes
    linkInserts := linkRows (tagNames notes) 0 notes }

/-- Spec-side (§4.3): the trimmed line is `http://` or `https://` followed by one
or more non-whitespace characters and nothing else. -/
def specBareRefLine (l : List Char) : Prop :=
  ∃ w, w ≠ [] ∧ (∀ c ∈ w, pySpace c = false) ∧
    (pyStrip l = "http://".data ++ w ∨ pyStrip l = "https://".data ++ w)

/-- Spec-side (§4.2): a note name per the claim's grammar, `A`-`G` with optional `#`/`b`. -/
def specNoteTok (n : List Char) : Bool :=
  match n with
  | [c] => 'A' ≤ c && c ≤ 'G'
  | [c, a] => ('A' ≤ c && c ≤ 'G') && (a = '#' || a = 'b')
  | _ => false

/-- Spec-side: optional slash-bass "of the same note-name grammar". -/
def specBassTok : List Char → Bool
  | [] => true
  | '/' :: n => specNoteTok n
  | _ => false

/-- Spec-side: remainders of the token after consuming the *optional* note name. -/
def optNoteRemainders (t : List Char) : List (List Char) :=
  [t] ++
    (match t with
     | c :: rest =>
       if 'A' ≤ c && c ≤ 'G' then
         [rest] ++
           (match rest with
            | a :: rest2 => if a = '#' || a = 'b' then [rest2] else []
            | [] => [])
       else []
     | [] => [])

/-- Spec-side: remainders after consuming the optional quality suffix. -/
def optQualRemainders (r : List Char) : List (List Char) :=
  [r] ++
    qualitySuffixes.filterMap
      (fun q => if startsWithL q.data r then some (r.drop q.length) else none) ++
    (if (r.takeWhile Char.isDigit).isEmpty then [] else [r.dropWhile Char.isDigit])

/-- Spec-side (claim C6): token grammar with an *optional* leading note name
(`A`-`G`, optional `#`/`b`), optional quality suffix, optional slash-bass. -/
def specChordTok (t : List Char) : Bool :=
  (optNoteRemainders t).any (fun r => (optQualRemainders r).any specBassTok)

/-- Amended grammar: quality suffix `m|maj|min|dim|aug|sus|\d+`, or empty. -/
def isQualitySfx (s : List Char) : Prop :=
  s = [] ∨ s = "m".data ∨ s = "maj".data ∨ s = "min".data ∨ s = "dim".data ∨
    s = "aug".data ∨ s = "sus".data ∨ (s ≠ [] ∧ ∀ c ∈ s, c.isDigit = true)

/-- Amended grammar: slash-bass `/[A-G][b#]?`, or empty. -/
def isBassSfx (b : List Char) : Prop :=
  b = [] ∨ ∃ c a, b = '/' :: c :: a ∧ 'A' ≤ c ∧ c ≤ 'G' ∧ (a = [] ∨ a = ['#'] ∨ a = ['b'])

/-- Amended grammar for a valid chord token: a *mandatory* leading note name drawn
from the sharp/flat spelling lists, then an optional quality suffix, then an
optional slash-bass `/[A-G][b#]?`. -/
def amendedChordGrammar (t : List Char) : Prop :=
  ∃ n s b, t = n ++ s ++ b ∧ n ∈ ALL_NOTES.map String.data ∧ isQualitySfx s ∧ isBassSfx b

/-- The end-to-end scenario input (§8): title `"Riff (Em, G)"`, one label, unpinned,
creation timestamp 0, edit timestamp absent. -/
def riffNote : RawNote :=
  { title := some "Riff (Em, G)"
    textContent := some "Tempo: 120\n\nhttps://example.com\ne|--0--\nB|--1--\nSome lyrics"
    labels := [{ name := some "music" }]
    isPinned := false
    createdTimestampUsec := some (TsVal.int 0)
    userEditedTimestampUsec := none }

/-- A note whose timestamp fields are absent (`data.get` then defaults them to 0). -/
def zeroTsNote : RawNote :=
  { title := none
    textContent := none
    labels := []
    isPinned := false
    createdTimestampUsec := none
    userEditedTimestampUsec := none }

/-- A note whose creation timestamp is present but not parseable as an integer. -/
def badTsNote : RawNote :=
  { zeroTsNote with createdTimestampUsec := some (TsVal.str "not-a-number") }

/-- A structured note with the given labels and empty text fields. -/
def tagNote (ls : List String) : StructuredNote :=
  { title := ""
    metadata := ""
    content := ""
    references := ""
    labels := ls
    is_pinned := false
    created_at_iso := ""
    updated_at_iso := "" }

theorem mem_dashFix {l : List Char} {c : Char} (hc : c ∈ dashFix l) : c ≠ '–' ∧ c ≠ '—' := by
  unfold dashFix at hc
  obtain ⟨a, -, rfl⟩ := List.mem_map.mp hc
  by_cases ha : (a = '–' || a = '—') = true
  · rw [if_pos ha]
    exact ⟨by decide, by decide⟩
  · rw [if_neg ha]
    simpa using ha

theorem dashFix_id : ∀ {l : List Char}, (∀ c ∈ l, c ≠ '–' ∧ c ≠ '—') → dashFix l = l
  | [], _ => rfl
  | a :: t, h => by
    have ha := h a (List.mem_cons_self a t)
    unfold dashFix
    simp only [List.map_cons]
    rw [if_neg (by simp [ha.1, ha.2])]
    exact congrArg _ (dashFix_id (fun c hc => h c (List.mem_cons_of_mem _ hc)))

theorem mem_replaceCRLF {c : Char} : ∀ {l : List Char}, c ∈ replaceCRLF l → c = '\n' ∨ c ∈ l
  | [], h => by simp [replaceCRLF] at h
  | [a], h => by
    rw [replaceCRLF] at h
    exact .inr h
  | a :: b :: rest, h => by
    rw [replaceCRLF] at h
    by_cases hab : (a = '\x0d' && b = '\n') = true
    · rw [if_pos hab] at h
      rcases List.mem_cons.mp h with h | h
      · exact .inl h
      · rcases mem_replaceCRLF h with h | h
        · exact .inl h
        · exact .inr (List.mem_cons_of_mem _ (List.mem_cons_of_mem _ h))
    · rw [if_neg hab] at h
      rcases List.mem_cons.mp h with h | h
      · exact .inr (h ▸ List.mem_cons_self _ _)
      · rcases mem_replaceCRLF h with h | h
        · exact .inl h
        · exact .inr (List.mem_cons_of_mem _ h)

theorem replaceCRLF_id : ∀ {l : List Char}, (∀ c ∈ l, c ≠ '\x0d') → replaceCRLF l = l
  | [], _ => rfl
  | [_], _ => rfl
  | a :: b :: rest, h => by
    rw [replaceCRLF]
    have ha : a ≠ '\x0d' := h a (by simp)
    rw [if_neg (by simp [ha])]
    exact congrArg _ (replaceCRLF_id (fun c hc => h c (by simp [hc])))

theorem mem_replaceCR {l : List Char} {c : Char} (hc : c ∈ replaceCR l) : c = '\n' ∨ c ∈ l := by
  unfold replaceCR at hc
  obtain ⟨a, ha, rfl⟩ := List.mem_map.mp hc
  by_cases h : a = '\x0d'
  · rw [if_pos h]
    exact .inl rfl
  · rw [if_neg h]
    exact .inr ha

theorem replaceCR_noCR {l : List Char} {c : Char} (hc : c ∈ replaceCR l) : c ≠ '\x0d' := by
  unfold replaceCR at hc
  obtain ⟨a, -, rfl⟩ := List.mem_map.mp hc
  by_cases h : a = '\x0d'
  · rw [if_pos h]
    decide
  · rw [if_neg h]
    exact h

theorem replaceCR_id : ∀ {l : List Char}, (∀ c ∈ l, c ≠ '\x0d') → replaceCR l = l
  | [], _ => rfl
  | a :: t, h => by
    unfold replaceCR
    simp only [List.map_cons]
    rw [if_neg (h a (List.mem_cons_self a t))]
    exact congrArg _ (replaceCR_id (fun c hc => h c (List.mem_cons_of_mem _ hc)))

/-- C9. For every input string, applying the text normalization of the conversion
(em/en dashes to hyphens, then `\r\n` and lone `\r` to `\n`) twice yields the same
result as applying it once. -/
theorem normalize_idempotent (l : List Char) :
    normalizeText (normalizeText l) = normalizeText l := by
  have hnoCR : ∀ c ∈ normalizeText l, c ≠ '\r' := fun c hc => replaceCR_noCR hc
  have hnoDash : ∀ c ∈ normalizeText l, c ≠ '–' ∧ c ≠ '—' := by
    intro c hc
    rcases mem_replaceCR hc with h | h
    · subst h; exact ⟨by decide, by decide⟩
    · rcases mem_replaceCRLF h with h | h
      · subst h; exact ⟨by decide, by decide⟩
      · exact mem_dashFix h
  show replaceCR (replaceCRLF (dashFix (normalizeText l))) = normalizeText l
  rw [dashFix_id hnoDash, replaceCRLF_id hnoCR, replaceCR_id hnoCR]

theorem normalize_idempotent_witness :
    normalizeText (normalizeText "a\r\nb–c\r".data) = normalizeText "a\r\nb–c\r".data :=
  normalize_idempotent _

/-- C5. When a metadata header is detected and the leading non-blank lines run to
the end of the input (no blank separator), all lines are consumed as metadata and
the remaining content is empty. -/
theorem header_to_end_consumes_all (ls : List (List Char))
    (hm : useMetadata ls = true) (hnb : ∀ l ∈ ls, isBlank l = false) :
    splitMetadata ls = (ls, []) := by
  have hfp : firstParagraph ls = ls := by
    unfold firstParagraph
    rw [List.takeWhile_eq_self_iff]
    intro x hx
    simp [hnb x hx]
  unfold splitMetadata
  rw [hm]
  simp only [if_pos, hfp]
  exact congrArg _ (List.drop_of_length_le (Nat.le_succ _))

theorem header_to_end_consumes_all_witness :
    useMetadata ["Artist: X".data, "Tuning: Standard".data] = true ∧
      splitMetadata ["Artist: X".data, "Tuning: Standard".data] =
        (["Artist: X".data, "Tuning: Standard".data], []) :=
  ⟨by decide, header_to_end_consumes_all _ (by decide) (by decide)⟩

/-- C4. The leading lines are consumed as a metadata header iff the first
paragraph neither starts with a digit-leading line nor contains a tablature line;
when consumed, the blank separator after the header is consumed too, and when not
consumed the content is left unchanged from line 0. -/
theorem metadata_detector_spec (ls : List (List Char)) :
    (useMetadata ls = true ↔
      ¬((∃ h hs, firstParagraph ls = h :: hs ∧ startsWithNumber h = true) ∨
        (∃ l ∈ firstParagraph ls, tabLineMatch l = true))) ∧
    (useMetadata ls = true →
      (splitMetadata ls).1 = firstParagraph ls ∧
      ∀ rest, ls = firstParagraph ls ++ rest → (splitMetadata ls).2 = rest.tail) ∧
    (useMetadata ls = false → splitMetadata ls = ([], ls)) := by
  refine ⟨?_, fun hm => ⟨?_, fun rest hrest => ?_⟩, fun hm => ?_⟩
  · unfold useMetadata
    cases hfp : firstParagraph ls with
    | nil => simp [hfp]
    | cons h t =>
      dsimp only
      simp only [Bool.not_eq_true', Bool.or_eq_false_iff, List.any_eq_false,
        List.cons.injEq]
      constructor
      · rintro ⟨h1, h2⟩
        rintro (⟨x, xs, ⟨rfl, -⟩, hx⟩ | ⟨l, hl, htab⟩)
        · exact absurd hx (by simp [h1])
        · exact absurd htab (by simp [h2 l hl])
      · intro hno
        refine ⟨?_, fun l hl => ?_⟩
        · by_cases hx : startsWithNumber h = true
          · exact absurd (Or.inl ⟨h, t, ⟨rfl, rfl⟩, hx⟩) hno
          · simpa using hx
        · by_cases ht : tabLineMatch l = true
          · exact absurd (Or.inr ⟨l, hl, ht⟩) hno
          · simpa using ht
  · unfold splitMetadata
    rw [hm]
    simp
  · unfold splitMetadata
    rw [hm]
    simp only [if_pos]
    obtain ⟨fp, hfp⟩ : ∃ fp, firstParagraph ls = fp := ⟨_, rfl⟩
    rw [hfp] at hrest ⊢
    subst hrest
    calc ((fp ++ rest).drop (fp.length + 1))
        = ((fp ++ rest).drop fp.length).drop 1 := by
          rw [List.drop_drop, Nat.add_comm]
      _ = rest.tail := by rw [List.drop_left, List.drop_one]
  · unfold splitMetadata
    rw [hm]
    simp

theorem metadata_detector_spec_witness :
    useMetadata ["Tempo: 120".data, "".data, "lyrics".data] = true ∧
      splitMetadata ["Tempo: 120".data, "".data, "lyrics".data] =
        (["Tempo: 120".data], ["lyrics".data]) ∧
      useMetadata ["1. First verse".data] = false ∧
      splitMetadata ["1. First verse".data] = ([], ["1. First verse".data]) := by
  refine ⟨by decide, ?_, by decide, ?_⟩
  · have h := (metadata_detector_spec ["Tempo: 120".data, "".data, "lyrics".data]).2.1
      (by decide)
    have h2 := h.2 ["".data, "lyrics".data] (by decide)
    have h1 := h.1
    rcases hsp : splitMetadata ["Tempo: 120".data, "".data, "lyrics".data] with ⟨a, b⟩
    rw [hsp] at h1 h2
    simp only at h1 h2
    rw [h1, h2]
    decide
  · exact (metadata_detector_spec ["1. First verse".data]).2.2 (by decide)

/-- C3 (code behavior at the failing input). A timestamp value that cannot be
parsed as an integer makes `parse_note_json` raise (modelled as `none`), and since
the call sits outside the per-file `try`, `collect_notes` aborts the whole batch;
only file reading/decoding failures are skipped. -/
theorem malformed_timestamp_aborts_batch :
    pyInt (TsVal.str "not-a-number") = none ∧
    parse_note_json "" badTsNote = none ∧
    collect_notes "" [some badTsNote, some zeroTsNote] = none ∧
    collect_notes "" [none, some zeroTsNote] =
      some [(parse_note_json "" zeroTsNote).getD (tagNote [])] :=
  ⟨rfl, rfl, rfl, rfl⟩

/-- C2 (code behavior at the failing input). With the creation and edit timestamps
absent (defaulted to 0), the produced timestamps are the Unix-epoch instant
1970-01-01T00:00:00+00:00 regardless of the run's current time `now` — the
`or`-fallbacks to `now` (resp. to the creation time) never fire, because
`micros_to_iso` maps 0 to a truthy epoch string rather than `None`. -/
theorem zero_timestamp_yields_epoch (now : String)
    (h : now ≠ "1970-01-01T00:00:00+00:00") :
    (parse_note_json now zeroTsNote).map StructuredNote.created_at_iso ≠ some now ∧
    (parse_note_json now zeroTsNote).map StructuredNote.created_at_iso =
      some "1970-01-01T00:00:00+00:00" ∧
    (parse_note_json now zeroTsNote).map StructuredNote.updated_at_iso =
      some "1970-01-01T00:00:00+00:00" := by
  refine ⟨?_, rfl, rfl⟩
  intro hc
  rw [show (parse_note_json now zeroTsNote).map StructuredNote.created_at_iso =
      some "1970-01-01T00:00:00+00:00" from rfl] at hc
  exact h (Option.some.injEq _ _ ▸ hc).symm

theorem zero_timestamp_yields_epoch_witness :
    ("2026-10-12T00:00:00+00:00" : String) ≠ "1970-01-01T00:00:00+00:00" ∧
    (parse_note_json "2026-10-12T00:00:00+00:00" zeroTsNote).map
      StructuredNote.created_at_iso = some "1970-01-01T00:00:00+00:00" :=
  ⟨by decide, (zero_timestamp_yields_epoch "2026-10-12T00:00:00+00:00" (by decide)).2.1⟩

/-- C1 counterexample: on the §8 scenario input the produced content opens with
three backticks immediately followed by the first tablature line — there is no
newline after the opening fence, contrary to the claimed content value. -/
theorem riff_content_counterexample :
    (parse_note_json "" riffNote).map StructuredNote.content =
      some "```e|--0--\nB|--1--\n```\nSome lyrics" ∧
    (parse_note_json "" riffNote).map StructuredNote.content ≠
      some "```\ne|--0--\nB|--1--\n```\nSome lyrics" :=
  ⟨rfl, by decide⟩

/-- C1 as amended: the end-to-end scenario produces title "Riff", metadata
"Tempo: 120\nChords used : Em, G", references "https://example.com", labels
["music"], unpinned, and content whose opening fence is directly followed by the
first tablature line (no newline after the opening backticks). -/
theorem riff_note_parses_amended (now : String) :
    parse_note_json now riffNote = some
      { title := "Riff"
        metadata := "Tempo: 120\nChords used : Em, G"
        content := "```e|--0--\nB|--1--\n```\nSome lyrics"
        references := "https://example.com"
        labels := ["music"]
        is_pinned := false
        created_at_iso := "1970-01-01T00:00:00+00:00"
        updated_at_iso := "1970-01-01T00:00:00+00:00" } :=
  rfl

theorem riff_note_parses_amended_witness :
    parse_note_json "2026-10-12T00:00:00+00:00" riffNote = some
      { title := "Riff"
        metadata := "Tempo: 120\nChords used : Em, G"
        content := "```e|--0--\nB|--1--\n```\nSome lyrics"
        references := "https://example.com"
        labels := ["music"]
        is_pinned := false
        created_at_iso := "1970-01-01T00:00:00+00:00"
        updated_at_iso := "1970-01-01T00:00:00+00:00" } :=
  riff_note_parses_amended _

theorem urlTail_iff (r : List Char) :
    urlTail r = true ↔
      ∃ w, w ≠ [] ∧ (∀ c ∈ w, pySpace c = false) ∧ r = ':' :: '/' :: '/' :: w := by
  constructor
  · intro h
    unfold urlTail at h
    split at h
    · rename_i rest
      refine ⟨rest, ?_, ?_, rfl⟩
      · have := (Bool.and_eq_true _ _).mp h |>.1
        simpa using this
      · have := (Bool.and_eq_true _ _).mp h |>.2
        intro c hc
        simpa using (List.all_eq_true.mp this) c hc
    · exact absurd h (by simp)
  · rintro ⟨w, hw, hns, rfl⟩
    unfold urlTail
    refine (Bool.and_eq_true _ _).mpr ⟨by simpa using hw, ?_⟩
    refine List.all_eq_true.mpr fun c hc => ?_
    simpa using hns c hc

theorem URL_fullmatch_cons (rest : List Char) :
    URL_fullmatch ('h' :: 't' :: 't' :: 'p' :: rest) =
      ((match rest with
        | 's' :: rest2 => urlTail rest2
        | _ => false) || urlTail rest) := rfl

theorem URL_fullmatch_iff (s : List Char) :
    URL_fullmatch s = true ↔
      ∃ w, w ≠ [] ∧ (∀ c ∈ w, pySpace c = false) ∧
        (s = "http://".data ++ w ∨ s = "https://".data ++ w) := by
  constructor
  · intro h
    unfold URL_fullmatch at h
    split at h
    · rename_i rest
      rcases (Bool.or_eq_true _ _).mp h with h1 | h2
      · split at h1
        · rename_i rest2
          obtain ⟨w, hw, hns, rfl⟩ := (urlTail_iff _).mp h1
          exact ⟨w, hw, hns, .inr rfl⟩
        · exact absurd h1 (by simp)
      · obtain ⟨w, hw, hns, rfl⟩ := (urlTail_iff _).mp h2
        exact ⟨w, hw, hns, .inl rfl⟩
    · exact absurd h (by simp)
  · rintro ⟨w, hw, hns, (rfl | rfl)⟩
    · have hred : "http://".data ++ w = 'h' :: 't' :: 't' :: 'p' :: ':' :: '/' :: '/' :: w := rfl
      rw [hred, URL_fullmatch_cons]
      exact (Bool.or_eq_true _ _).mpr (.inr ((urlTail_iff _).mpr ⟨w, hw, hns, rfl⟩))
    · have hred : "https://".data ++ w =
          'h' :: 't' :: 't' :: 'p' :: 's' :: ':' :: '/' :: '/' :: w := rfl
      rw [hred, URL_fullmatch_cons]
      exact (Bool.or_eq_true _ _).mpr (.inl ((urlTail_iff _).mpr ⟨w, hw, hns, rfl⟩))

theorem splitRefs_eq (ls : List (List Char)) :
    splitRefs ls = ((ls.filter isBareRef).map pyStrip, ls.filter (fun l => !isBareRef l)) := by
  induction ls with
  | nil => rfl
  | cons l rest ih =>
    unfold splitRefs
    rw [ih]
    by_cases h : isBareRef l = true
    · simp [h, List.filter_cons]
    · have h' : isBareRef l = false := by simpa using h
      simp [List.filter_cons, h']

/-- C7. A normalized body line is classified as a bare reference iff its trimmed
content is `http://` or `https://` followed by at least one non-whitespace
character and nothing else; reference lines are accumulated (stripped) in
original order and removed from the content stream, the remaining lines keeping
their relative order. -/
theorem reference_extraction_spec (ls : List (List Char)) :
    splitRefs ls = ((ls.filter isBareRef).map pyStrip, ls.filter (fun l => !isBareRef l)) ∧
    ∀ l : List Char, isBareRef l = true ↔ specBareRefLine l :=
  ⟨splitRefs_eq ls, fun l => by
    unfold isBareRef specBareRefLine
    exact URL_fullmatch_iff _⟩

theorem reference_extraction_spec_witness :
    splitRefs ["https://example.com/a".data, "e|---0---2---".data, "   ".data] =
      (["https://example.com/a".data], ["e|---0---2---".data, "   ".data]) := by
  rw [(reference_extraction_spec _).1]
  decide

theorem startsWithL_iff : ∀ (p s : List Char), startsWithL p s = true ↔ ∃ r, s = p ++ r
  | [], s => by simp [startsWithL]
  | p :: ps, [] => by simp [startsWithL]
  | p :: ps, c :: cs => by
    rw [startsWithL]
    simp only [Bool.and_eq_true, decide_eq_true_eq]
    rw [startsWithL_iff ps cs]
    constructor
    · rintro ⟨rfl, r, rfl⟩
      exact ⟨r, rfl⟩
    · rintro ⟨r, hr⟩
      rw [List.cons_append] at hr
      injection hr with h1 h2
      exact ⟨h1.symm, r, h2⟩

theorem bassOpt_iff (b : List Char) : bassOpt b = true ↔ isBassSfx b := by
  unfold bassOpt
  split
  · simp [isBassSfx]
  · rename_i d rest
    simp only [Bool.and_eq_true, Bool.or_eq_true, isBassSfx, isBassNoteLetter,
      decide_eq_true_eq, List.isEmpty_iff, beq_iff_eq, List.cons.injEq]
    constructor
    · rintro ⟨⟨h1, h2⟩, h3⟩
      exact .inr ⟨d, rest, ⟨trivial, rfl, rfl⟩, h1, h2, by tauto⟩
    · rintro (h | ⟨c, a, ⟨-, rfl, rfl⟩, h1, h2, h3⟩)
      · exact absurd h (by simp)
      · exact ⟨⟨h1, h2⟩, by tauto⟩
  · rename_i hne1 hne2
    constructor
    · intro h
      exact absurd h (by simp)
    · rintro (rfl | ⟨c, a, rfl, -⟩)
      · exact absurd rfl hne1
      · exact absurd rfl (hne2 c a)

theorem suffixBass_of_qual {q : String} (hq : q ∈ qualitySuffixes) {b : List Char}
    (hb : bassOpt b = true) : suffixBass (q.data ++ b) = true := by
  unfold suffixBass
  refine (Bool.or_eq_true _ _).mpr (.inl ((Bool.or_eq_true _ _).mpr (.inr ?_)))
  rw [List.any_eq_true]
  refine ⟨q, hq, (Bool.and_eq_true _ _).mpr ⟨(startsWithL_iff _ _).mpr ⟨b, rfl⟩, ?_⟩⟩
  rw [List.drop_left' (show q.data.length = q.length from rfl)]
  exact hb

/-- C6 as amended: a token from the title's first parenthesized group is a valid
chord iff it consists of a *mandatory* leading note name drawn from the fixed
sharp/flat spelling lists (`ALL_NOTES`; `Cb`, `Fb`, `E#`, `B#` are not included),
optionally followed by a quality suffix (`m`, `maj`, `min`, `dim`, `aug`, `sus`,
or digits), optionally followed by a slash-bass `/[A-G][b#]?` (a broader note
grammar than the leading note's). -/
theorem chord_token_grammar_amended (t : List Char) :
    CHORD_SUFFIX_match t = true ↔ amendedChordGrammar t := by
  unfold CHORD_SUFFIX_match amendedChordGrammar
  rw [List.any_eq_true]
  constructor
  · rintro ⟨n, hn, hb⟩
    rw [Bool.and_eq_true] at hb
    obtain ⟨r, rfl⟩ := (startsWithL_iff _ _).mp hb.1
    rw [List.drop_left' (show n.data.length = n.length from rfl)] at hb
    have hsfx := hb.2
    unfold suffixBass at hsfx
    rcases (Bool.or_eq_true _ _).mp hsfx with h12 | h3
    · rcases (Bool.or_eq_true _ _).mp h12 with h1 | h2
      · exact ⟨n.data, [], r, by simp, List.mem_map_of_mem _ hn, Or.inl rfl,
          (bassOpt_iff r).mp h1⟩
      · rw [List.any_eq_true] at h2
        obtain ⟨q, hq, hqb⟩ := h2
        rw [Bool.and_eq_true] at hqb
        obtain ⟨r2, rfl⟩ := (startsWithL_iff _ _).mp hqb.1
        rw [List.drop_left' (show q.data.length = q.length from rfl)] at hqb
        refine ⟨n.data, q.data, r2, by simp, List.mem_map_of_mem _ hn, ?_,
          (bassOpt_iff _).mp hqb.2⟩
        fin_cases hq <;> simp [isQualitySfx]
    · unfold digitsBass at h3
      rw [Bool.and_eq_true] at h3
      refine ⟨n.data, r.takeWhile Char.isDigit, r.dropWhile Char.isDigit,
        by rw [List.append_assoc, List.takeWhile_append_dropWhile],
        List.mem_map_of_mem _ hn, ?_, (bassOpt_iff _).mp h3.2⟩
      right; right; right; right; right; right; right
      exact ⟨by simpa using h3.1, fun c hc => List.mem_takeWhile_imp hc⟩
  · rintro ⟨n, s, b, rfl, hn, hs, hb⟩
    obtain ⟨ns, hns, rfl⟩ := List.mem_map.mp hn
    refine ⟨ns, hns, (Bool.and_eq_true _ _).mpr
      ⟨(startsWithL_iff _ _).mpr ⟨s ++ b, by simp⟩, ?_⟩⟩
    rw [List.append_assoc, List.drop_left' (show ns.data.length = ns.length from rfl)]
    have hbass := (bassOpt_iff b).mpr hb
    rcases hs with rfl | rfl | rfl | rfl | rfl | rfl | rfl | ⟨hne, hdig⟩
    · rw [List.nil_append]
      unfold suffixBass
      rw [Bool.or_eq_true, Bool.or_eq_true]
      exact .inl (.inl hbass)
    · exact suffixBass_of_qual (by decide) hbass
    · exact suffixBass_of_qual (by decide) hbass
    · exact suffixBass_of_qual (by decide) hbass
    · exact suffixBass_of_qual (by decide) hbass
    · exact suffixBass_of_qual (by decide) hbass
    · exact suffixBass_of_qual (by decide) hbass
    · unfold suffixBass
      refine (Bool.or_eq_true _ _).mpr (.inr ?_)
      unfold digitsBass
      have htake : (s ++ b).takeWhile Char.isDigit = s ++ b.takeWhile Char.isDigit :=
        List.takeWhile_append_of_pos hdig
      have hdrop : (s ++ b).dropWhile Char.isDigit = b.dropWhile Char.isDigit :=
        List.dropWhile_append_of_pos hdig
      have hbt : b.takeWhile Char.isDigit = [] ∧ b.dropWhile Char.isDigit = b := by
        rcases hb with rfl | ⟨c, a, rfl, -⟩
        · exact ⟨rfl, rfl⟩
        · exact ⟨List.takeWhile_cons_of_neg (by decide), List.dropWhile_cons_of_neg (by decide)⟩
      rw [Bool.and_eq_true, htake, hdrop, hbt.1, hbt.2, List.append_nil]
      exact ⟨by simpa using hne, hbass⟩

/-- C6 counterexample: per the claimed grammar the leading note name is optional,
so "7" and "sus" would be valid chords; the code's `CHORD_SUFFIX_RE` rejects both
(the note name is mandatory), and a title whose group holds only such a token is
left unchanged with no annotation produced. -/
theorem bare_suffix_token_rejected :
    specChordTok "7".data = true ∧ specChordTok "sus".data = true ∧
    CHORD_SUFFIX_match "7".data = false ∧ CHORD_SUFFIX_match "sus".data = false ∧
    extract_chords_from_title "Song (7)".data = ("Song (7)".data, none) :=
  ⟨rfl, rfl, rfl, rfl, rfl⟩

theorem chord_token_grammar_amended_witness :
    CHORD_SUFFIX_match "Em".data = true ∧ amendedChordGrammar "Em".data :=
  ⟨by decide, (chord_token_grammar_amended "Em".data).mp (by decide)⟩

theorem insertSorted_perm (x : String) : ∀ l : List String, (insertSorted x l).Perm (x :: l)
  | [] => .refl _
  | y :: ys => by
    unfold insertSorted
    split
    · exact ((insertSorted_perm x ys).cons y).trans (List.Perm.swap' x y (.refl ys))
    · exact .refl _

theorem sortStrs_perm : ∀ l : List String, (sortStrs l).Perm l
  | [] => .refl _
  | x :: xs => (insertSorted_perm x (sortStrs xs)).trans ((sortStrs_perm xs).cons x)

theorem tagNames_nodup (notes : List StructuredNote) : (tagNames notes).Nodup :=
  (sortStrs_perm _).nodup_iff.mpr (List.nodup_dedup _)

theorem mem_tagNames {L : String} {notes : List StructuredNote} :
    L ∈ tagNames notes ↔ L ∈ allLabels notes :=
  (sortStrs_perm _).mem_iff.trans List.mem_dedup

theorem mem_allLabels {L : String} : ∀ {notes : List StructuredNote},
    L ∈ allLabels notes ↔ ∃ n ∈ notes, L ∈ n.labels
  | [] => by simp [allLabels]
  | n :: notes => by
    unfold allLabels
    rw [List.mem_append, mem_allLabels]
    constructor
    · rintro (h | ⟨m, hm, hLm⟩)
      · exact ⟨n, by simp, h⟩
      · exact ⟨m, by simp [hm], hLm⟩
    · rintro ⟨m, hm, hLm⟩
      rcases List.mem_cons.mp hm with rfl | hm'
      · exact .inl hLm
      · exact .inr ⟨m, hm', hLm⟩

theorem idxOf_of_mem {L : String} : ∀ {ts : List String}, L ∈ ts → ∃ t, idxOf ts L = some t
  | [], h => by simp at h
  | x :: ts, h => by
    unfold idxOf
    by_cases hx : x = L
    · exact ⟨0, by rw [if_pos hx]⟩
    · rcases List.mem_cons.mp h with rfl | h'
      · exact absurd rfl hx
      · obtain ⟨t, ht⟩ := idxOf_of_mem h'
        exact ⟨t + 1, by rw [if_neg hx, ht]; rfl⟩

theorem idxOf_inj : ∀ {ts : List String} {L M : String} {t : Nat},
    idxOf ts L = some t → idxOf ts M = some t → L = M
  | [], L, M, t, h, _ => by simp [idxOf] at h
  | x :: ts, L, M, t, hL, hM => by
    unfold idxOf at hL hM
    by_cases hxL : x = L <;> by_cases hxM : x = M
    · exact hxL ▸ hxM ▸ rfl
    · rw [if_pos hxL] at hL
      rw [if_neg hxM] at hM
      obtain ⟨u, hu, huM⟩ := Option.map_eq_some'.mp hM
      have h0 : 0 = t := Option.some.inj hL
      omega
    · rw [if_neg hxL] at hL
      rw [if_pos hxM] at hM
      obtain ⟨u, hu, huL⟩ := Option.map_eq_some'.mp hL
      have h0 : 0 = t := Option.some.inj hM
      omega
    · rw [if_neg hxL] at hL
      rw [if_neg hxM] at hM
      obtain ⟨u, hu, huL⟩ := Option.map_eq_some'.mp hL
      obtain ⟨v, hv, hvM⟩ := Option.map_eq_some'.mp hM
      have huv : u = v := by omega
      exact idxOf_inj hu (huv ▸ hv)

theorem enumTags_filter_len (L : String) : ∀ (i : Nat) (ts : List String),
    ((enumTags i ts).filter (fun p => p.2 == L)).length = ts.count L
  | _, [] => rfl
  | i, x :: ts => by
    unfold enumTags
    rw [List.filter_cons]
    by_cases hx : x = L
    · have hbeq : (x == L) = true := by simpa using hx
      simp [hbeq, enumTags_filter_len L (i + 1) ts, List.count_cons, hx]
    · have hbeq : (x == L) = false := by simpa using hx
      have hbeq2 : (L == x) = false := by simpa using Ne.symm hx
      simp [hbeq, hbeq2, enumTags_filter_len L (i + 1) ts, List.count_cons]

theorem labelLinks_filter {ts : List String} {L : String} {t : Nat}
    (ht : idxOf ts L = some t) (i : Nat) :
    ∀ labels : List String,
      (labels.filterMap (fun l => (idxOf ts l).map (fun u => (i, u)))).filter
          (fun p => p.2 == t) =
        List.replicate (labels.count L) (i, t)
  | [] => rfl
  | l :: labels => by
    rw [List.filterMap_cons]
    by_cases hl : l = L
    · rw [hl, ht]
      simp only [Option.map_some']
      rw [List.filter_cons]
      have : ((i, t).2 == t) = true := by simp
      simp [this, labelLinks_filter ht i labels, List.count_cons, hl,
        List.replicate_succ]
    · cases hio : idxOf ts l with
      | none =>
        have hbeq : (L == l) = false := by simpa using Ne.symm hl
        simp [hio, labelLinks_filter ht i labels, List.count_cons, hbeq, hl]
      | some u =>
        have hut : (u == t) = false := by
          simp only [beq_eq_false_iff_ne, ne_eq]
          intro h
          exact hl (idxOf_inj (h ▸ hio) ht)
        have hbeq : (L == l) = false := by simpa using Ne.symm hl
        simp only [Option.map_some']
        rw [List.filter_cons]
        simp [hut, labelLinks_filter ht i labels, List.count_cons, hbeq, hl]

theorem linkRows_filter_tag {ts : List String} {L : String} {t : Nat}
    (ht : idxOf ts L = some t) :
    ∀ (i : Nat) (notes : List StructuredNote),
      (linkRows ts i notes).filter (fun p => p.2 == t) = replLinks L t i notes
  | _, [] => rfl
  | i, n :: notes => by
    unfold linkRows replLinks
    rw [List.filter_append, labelLinks_filter ht i n.labels,
      linkRows_filter_tag ht (i + 1) notes]

theorem replLinks_filter_fst_out {L : String} {t i : Nat} :
    ∀ (j : Nat) (notes : List StructuredNote), i < j →
      (replLinks L t j notes).filter (fun p => p.1 == i) = []
  | _, [], _ => rfl
  | j, n :: notes, hij => by
    unfold replLinks
    rw [List.filter_append, replLinks_filter_fst_out (j + 1) notes (Nat.lt_succ_of_lt hij),
      List.append_nil]
    rw [List.filter_eq_nil_iff]
    intro a ha
    have := (List.mem_replicate.mp ha).2
    subst this
    simp
    omega

theorem replLinks_filter_fst {L : String} {t : Nat} :
    ∀ (notes : List StructuredNote) (i : Nat) (n : StructuredNote),
      notes.get? i = some n → ∀ j : Nat,
        (replLinks L t j notes).filter (fun p => p.1 == j + i) =
          List.replicate (n.labels.count L) (j + i, t)
  | [], i, n, hn, j => by simp at hn
  | m :: notes, 0, n, hn, j => by
    have hm : m = n := Option.some.inj hn
    subst hm
    unfold replLinks
    rw [List.filter_append]
    rw [replLinks_filter_fst_out (j + 1) notes (by omega), List.append_nil]
    rw [List.filter_eq_self.mpr]
    · rw [Nat.add_zero]
    · intro a ha
      have := (List.mem_replicate.mp ha).2
      subst this
      simp
  | m :: notes, i + 1, n, hn, j => by
    have hn' : notes.get? i = some n := hn
    unfold replLinks
    rw [List.filter_append]
    have hrec := @replLinks_filter_fst L t notes i n hn' (j + 1)
    rw [show j + 1 + i = j + (i + 1) by omega] at hrec
    rw [hrec]
    have hout : (List.replicate (m.labels.count L) (j, t)).filter
        (fun p => p.1 == j + (i + 1)) = [] := by
      rw [List.filter_eq_nil_iff]
      intro a ha
      have := (List.mem_replicate.mp ha).2
      subst this
      simp
    rw [hout, List.nil_append]

theorem replLinks_map_fst {L : String} {t : Nat} :
    ∀ (notes : List StructuredNote), (∀ n ∈ notes, n.labels.count L ≤ 1) →
      ∀ j : Nat,
        (replLinks L t j notes).map (fun p => p.1) =
          ((enumNotes j notes).filter (fun p => decide (L ∈ p.2.labels))).map (fun p => p.1)
  | [], _, _ => rfl
  | n :: notes, h, j => by
    unfold replLinks enumNotes
    rw [List.map_append, List.filter_cons]
    have hrec := @replLinks_map_fst L t notes (fun x hx => h x (List.mem_cons_of_mem _ hx)) (j + 1)
    by_cases hm : L ∈ n.labels
    · have hc1 : n.labels.count L = 1 :=
        Nat.le_antisymm (h n (List.mem_cons_self _ _)) (List.count_pos_iff.mpr hm)
      rw [hc1]
      simp [hm, hrec]
    · have hc0 : n.labels.count L = 0 := List.count_eq_zero.mpr hm
      rw [hc0]
      simp [hm, hrec]

theorem enumNotes_filter_len (q : StructuredNote → Bool) :
    ∀ (j : Nat) (notes : List StructuredNote),
      ((enumNotes j notes).filter (fun p => q p.2)).length = (notes.filter q).length
  | _, [] => rfl
  | j, n :: notes => by
    unfold enumNotes
    rw [List.filter_cons, List.filter_cons]
    by_cases hq : q n = true
    · simp [hq, enumNotes_filter_len q (j + 1) notes]
    · have hq' : q n = false := by simpa using hq
      simp [hq', enumNotes_filter_len q (j + 1) notes]

/-- C8. A label appearing in the label lists of exactly two notes of a run (once
in each) yields exactly one tag-insert row carrying that name, and exactly two
link-insert rows, one per note, both referencing that tag's identifier. -/
theorem shared_label_single_tag_two_links (notes : List StructuredNote) (L : String)
    (h2 : (notes.filter (fun n => decide (L ∈ n.labels))).length = 2)
    (h1 : ∀ n ∈ notes, n.labels.count L ≤ 1) :
    ((generate_sql notes).tagInserts.filter (fun p => p.2 == L)).length = 1 ∧
    ∃ t, idxOf (tagNames notes) L = some t ∧
      ((generate_sql notes).linkInserts.filter (fun p => p.2 == t)).map (fun p => p.1) =
        ((enumNotes 0 notes).filter (fun p => decide (L ∈ p.2.labels))).map (fun p => p.1) ∧
      ((generate_sql notes).linkInserts.filter (fun p => p.2 == t)).length = 2 := by
  have hmemL : L ∈ tagNames notes := by
    have hpos : 0 < (notes.filter (fun n => decide (L ∈ n.labels))).length := by omega
    rw [List.length_pos] at hpos
    obtain ⟨n, hn⟩ := List.exists_mem_of_ne_nil _ hpos
    have := List.mem_filter.mp hn
    exact mem_tagNames.mpr (mem_allLabels.mpr ⟨n, this.1, by simpa using this.2⟩)
  obtain ⟨t, ht⟩ := idxOf_of_mem hmemL
  constructor
  · show ((enumTags 0 (tagNames notes)).filter (fun p => p.2 == L)).length = 1
    rw [enumTags_filter_len L 0 (tagNames notes)]
    exact List.count_eq_one_of_mem (tagNames_nodup notes) hmemL
  · refine ⟨t, ht, ?_, ?_⟩
    · show ((linkRows (tagNames notes) 0 notes).filter (fun p => p.2 == t)).map _ = _
      rw [linkRows_filter_tag ht 0 notes, replLinks_map_fst notes h1 0]
    · show ((linkRows (tagNames notes) 0 notes).filter (fun p => p.2 == t)).length = 2
      rw [linkRows_filter_tag ht 0 notes]
      have hlen : ((replLinks L t 0 notes).map (fun p => p.1)).length =
          (((enumNotes 0 notes).filter (fun p => decide (L ∈ p.2.labels))).map
            (fun p => p.1)).length := by
        rw [replLinks_map_fst notes h1 0]
      rw [List.length_map, List.length_map,
        enumNotes_filter_len (fun n => decide (L ∈ n.labels)) 0 notes] at hlen
      omega

/-- C10. Duplicate labels inside one note are not deduplicated at link-emission
time: a note listing the same non-empty label k times yields one tag-insert row
for the name but k link-insert rows for that note, all referencing the same tag
identifier. -/
theorem duplicate_labels_duplicate_links (notes : List StructuredNote)
    (i : Nat) (n : StructuredNote) (L : String) (k : Nat)
    (hn : notes.get? i = some n) (hc : n.labels.count L = k) (hk : 1 < k)
    (_hL : L ≠ "") :
    ((generate_sql notes).tagInserts.filter (fun p => p.2 == L)).length = 1 ∧
    ∃ t, idxOf (tagNames notes) L = some t ∧
      ((generate_sql notes).linkInserts.filter (fun p => p.2 == t)).filter
          (fun p => p.1 == i) = List.replicate k (i, t) := by
  have hmemn : n ∈ notes := List.get?_mem hn
  have hmemL : L ∈ tagNames notes :=
    mem_tagNames.mpr (mem_allLabels.mpr ⟨n, hmemn, List.count_pos_iff.mp (by omega)⟩)
  obtain ⟨t, ht⟩ := idxOf_of_mem hmemL
  refine ⟨?_, t, ht, ?_⟩
  · show ((enumTags 0 (tagNames notes)).filter (fun p => p.2 == L)).length = 1
    rw [enumTags_filter_len L 0 (tagNames notes)]
    exact List.count_eq_one_of_mem (tagNames_nodup notes) hmemL
  · show ((linkRows (tagNames notes) 0 notes).filter (fun p => p.2 == t)).filter
        (fun p => p.1 == i) = _
    rw [linkRows_filter_tag ht 0 notes]
    have hf := @replLinks_filter_fst L t notes i n hn 0
    rw [Nat.zero_add] at hf
    rw [hf, hc]

theorem shared_label_single_tag_two_links_witness :
    (([tagNote ["music"], tagNote ["music", "rock"]].filter
        (fun n => decide ("music" ∈ n.labels))).length = 2) ∧
    (((generate_sql [tagNote ["music"], tagNote ["music", "rock"]]).tagInserts.filter
        (fun p => p.2 == "music")).length = 1) :=
  ⟨by decide,
    (shared_label_single_tag_two_links [tagNote ["music"], tagNote ["music", "rock"]]
      "music" (by decide) (by decide)).1⟩

theorem duplicate_labels_duplicate_links_witness :
    ((generate_sql [tagNote ["rock", "rock"]]).tagInserts.filter
        (fun p => p.2 == "rock")).length = 1 ∧
    ∃ t, idxOf (tagNames [tagNote ["rock", "rock"]]) "rock" = some t ∧
      ((generate_sql [tagNote ["rock", "rock"]]).linkInserts.filter
          (fun p => p.2 == t)).filter (fun p => p.1 == 0) = List.replicate 2 (0, t) :=
  duplicate_labels_duplicate_links [tagNote ["rock", "rock"]] 0 (tagNote ["rock", "rock"])
    "rock" 2 rfl (by decide) (by decide) (by decide)
